import Mathlib

/-!
Verification of the Proton Mail Bridge SMTP send pipeline.

This file embeds, as executable Lean definitions, the parts of the bridge's
`internal/user` SMTP session (the `smtpSession` methods `Mail`, `Rcpt`, `Data`,
plus `sanitizeParsedMessage`, `getParentID`, `sanitizeEmail`, `constructEmail`)
and the `safe.Map` ordered concurrent map, and proves the behavioural
properties stated in the repository's specification.

Modelling conventions:
* Go `map[string]T` values are modelled as association lists
  `List (String × T)`; Go map iteration (whose order is unspecified) is
  modelled as iteration in list order.
* Network calls (`GetAllMessageMetadata`, `DeleteMessage`, the parser, the
  whole draft/send machinery) are modelled as oracle functions passed in as
  arguments; error aborts of those calls are not modelled where the claims
  only concern the non-aborting behaviour.
* Go `strings` functions are re-implemented structurally over `List Char`
  so that every definition evaluates by `decide`/`rfl` on closed inputs.
  `strings.EqualFold` is modelled as ASCII case-insensitive equality.
-/

namespace ProtonBridge

/-! ## Go string primitives -/

/-- Go `strings.Split` with a single-character separator: splits at every
occurrence of `sep`; the result always has one more element than the number
of occurrences of `sep`. -/
def splitOnChar (sep : Char) : List Char → List (List Char)
  | [] => [[]]
  | c :: cs =>
    if c = sep then [] :: splitOnChar sep cs
    else
      match splitOnChar sep cs with
      | [] => [[c]]
      | w :: ws => (c :: w) :: ws

/-- Go `strings.Split(s, sep)` for a one-character separator, on `String`. -/
def splitOn1 (sep : Char) (s : String) : List String :=
  (splitOnChar sep s.toList).map String.mk

/-- List-level check that the first list begins the second one. -/
def startsList : List Char → List Char → Bool
  | [], _ => true
  | _ :: _, [] => false
  | a :: as, b :: bs => a == b && startsList as bs

/-- List-level substring containment. -/
def containsList (sub : List Char) : List Char → Bool
  | [] => sub.isEmpty
  | c :: cs => startsList sub (c :: cs) || containsList sub cs

/-- Go `strings.Contains`. -/
def strContains (s sub : String) : Bool :=
  containsList sub.toList s.toList

/-- Go `strings.TrimSuffix`. -/
def trimSuffix (s suffix : String) : String :=
  if startsList suffix.toList.reverse s.toList.reverse then
    String.mk (s.toList.take (s.toList.length - suffix.toList.length))
  else s

/-- Go `strings.EqualFold`, modelled as ASCII case-insensitive equality. -/
def eqFold (a b : String) : Bool :=
  a.toList.map Char.toLower == b.toList.map Char.toLower

/-! ## Email sanitisation helpers (`sanitizeEmail`, `constructEmail`) -/

/-- Embedding of `sanitizeEmail`: strip any `+tag` from the local part of an
email of the shape `local@domain`; malformed addresses are returned as-is. -/
def sanitizeEmail (email : String) : String :=
  match splitOn1 '@' email with
  | [loc, dom] => ((splitOn1 '+' loc).headD "") ++ "@" ++ dom
  | _ => email

/-- Embedding of `constructEmail`: graft the header's plus tag onto the owned
address. The tag is kept only when the header local part splits on `+` into
exactly two pieces; in every other case the owned address is returned
unchanged. -/
def constructEmail (headerEmail addressEmail : String) : String :=
  match splitOn1 '@' headerEmail with
  | [hLoc, _] =>
    match splitOn1 '+' hLoc with
    | [_, tag] =>
      match splitOn1 '@' addressEmail with
      | [aLoc, aDom] => aLoc ++ "+" ++ tag ++ "@" ++ aDom
      | _ => addressEmail
    | _ => addressEmail
  | _ => addressEmail

/-! ## Parsed message and `sanitizeParsedMessage` -/

/-- Go `mail.Address` (display name plus address spec). -/
structure MailAddress where
  name : String
  address : String
deriving DecidableEq, Repr

/-- The part of the parsed message (`pkg/message.Message`) that the sanitiser
reads and writes. `sender = none` models a nil `*mail.Address`. -/
structure Message where
  sender : Option MailAddress
  toList : List MailAddress
  ccList : List MailAddress
  bccList : List MailAddress
  references : List String
deriving DecidableEq, Repr

/-- Modelled from the spec: `message.Recipients()` (in `pkg/message`, not under
`src/`). Per the sanitisation step "for every envelope recipient not in
`ToList ∪ CcList`, append to `BccList`", the recipients are the address
strings of the To list and the Cc list. -/
def Message.recipients (m : Message) : List String :=
  m.toList.map (·.address) ++ m.ccList.map (·.address)

/-- The sanitiser's one failure mode: the sender is not an owned address. -/
inductive SanitizeError where
  | addressNotOwned (addr : String)
deriving DecidableEq, Repr

/-- Step 1 of `sanitizeParsedMessage`: substitute the envelope return-path
address when the `Sender` is missing or has an empty address. -/
def fixSender (m : Message) (from_ : String) : Message :=
  match m.sender with
  | none => { m with sender := some ⟨"", from_⟩ }
  | some a => if a.address = "" then { m with sender := some { a with address := from_ } } else m

/-- The BCC loop of `sanitizeParsedMessage`: for each envelope recipient not
among the message's recipients, append a bare address to the Bcc list. -/
def bccAppend (m : Message) : List String → Message
  | [] => m
  | r :: rs =>
    if r ∈ m.recipients then bccAppend m rs
    else bccAppend { m with bccList := m.bccList ++ [⟨"", r⟩] } rs

/-- Embedding of `sanitizeParsedMessage`: fix up the sender, require it to be
an owned email (case-insensitively, after stripping any plus tag), rewrite it
via `constructEmail`, filter the To list down to envelope recipients, and
synthesise Bcc entries for envelope recipients not otherwise listed. -/
def sanitizeParsedMessage (msg : Message) (from_ : String) (to_ emails : List String) :
    Except SanitizeError Message :=
  let m := fixSender msg from_
  let sender := m.sender.getD ⟨"", ""⟩
  match emails.findIdx? (fun email => eqFold email (sanitizeEmail sender.address)) with
  | none => .error (.addressNotOwned sender.address)
  | some idx =>
    let m := { m with sender := some { sender with address := constructEmail sender.address (emails.getD idx "") } }
    let m := { m with toList := m.toList.filter (fun a => decide (a.address ∈ to_)) }
    .ok (bccAppend m to_)

/-! ## SMTP session state machine -/

/-- The SMTP-level errors returned by the session (`ErrNotImplemented`,
`ErrInvalidReturnPath`, `ErrInvalidRecipient`, `ErrMissingAddrKey`), plus two
constructors standing for the wrapped parser / send failures. -/
inductive SMTPErr where
  | notImplemented
  | invalidReturnPath
  | invalidRecipient
  | missingAddrKey
  | parseFailure
  | sendFailure
deriving DecidableEq, Repr

/-- The vault address mode. -/
inductive AddressMode where
  | combined
  | split
deriving DecidableEq, Repr

/-- The mutable part of `smtpSession` that the claims are about. `emails` is
the Go map `map[addrID]email`, modelled as an association list iterated in
list order. -/
structure Session where
  userID : String
  addrID : String
  addrMode : AddressMode
  emails : List (String × String)
  fromAddrID : String
  to_ : List String
deriving DecidableEq, Repr

/-- Go `smtp.MailOptions`, restricted to the fields the session inspects. -/
structure MailOptions where
  requireTLS : Bool
  utf8 : Bool
  auth : Option String
deriving DecidableEq, Repr

/-- Go map lookup `session.emails[session.addrID]`: the zero value `""` is
returned when the key is absent. -/
def lookupEmail (emails : List (String × String)) (addrID : String) : String :=
  (((emails.find? (fun p => p.1 == addrID)).map (·.2)).getD "")

/-- The matching loop shared by `Mail` and `Data`: fold over the email map,
replacing the accumulator with the address ID of every entry whose email
satisfies `test`; the last matching entry wins. -/
def matchAddrID (emails : List (String × String)) (test : String → Bool) (acc : String) : String :=
  emails.foldl (fun a p => if test p.2 then p.1 else a) acc

/-- The body of `Mail` after the options checks: run the matching loop over
the owned emails, then fail with `ErrInvalidReturnPath` exactly when the
resulting `fromAddrID` is still empty. -/
def mailCore (s : Session) (from_ : String) : Except SMTPErr Unit × Session :=
  let f := matchAddrID s.emails (fun email => eqFold from_ email) s.fromAddrID
  let s' := { s with fromAddrID := f }
  if f = "" then (.error .invalidReturnPath, s') else (.ok (), s')

/-- Embedding of `smtpSession.Mail`: reject `RequireTLS`, `UTF8`, and a
non-empty `Auth` parameter different from the active address's email with
`ErrNotImplemented`; otherwise resolve the return path. The session is
returned alongside the result since Go mutates it in place. -/
def smtpMail (s : Session) (from_ : String) (opts : MailOptions) : Except SMTPErr Unit × Session :=
  if opts.requireTLS then (.error .notImplemented, s)
  else if opts.utf8 then (.error .notImplemented, s)
  else
    match opts.auth with
    | some a =>
      if a ≠ "" ∧ a ≠ lookupEmail s.emails s.addrID then (.error .notImplemented, s)
      else mailCore s from_
    | none => mailCore s from_

/-- Embedding of `smtpSession.Rcpt`: an empty recipient is
`ErrInvalidRecipient`; otherwise the raw argument is appended to `to` unless
already present (case-sensitive comparison). -/
def smtpRcpt (s : Session) (addr : String) : Except SMTPErr Unit × Session :=
  if addr = "" then (.error .invalidRecipient, s)
  else if addr ∈ s.to_ then (.ok (), s)
  else (.ok (), { s with to_ := s.to_ ++ [addr] })

/-- Embedding of `smtpSession.Reset`: clear the return path and recipients. -/
def smtpReset (s : Session) : Session :=
  { s with fromAddrID := "", to_ := [] }

/-- The `MessageSent` event published on the session's event channel. -/
structure MessageSentEvent where
  userID : String
  addressID : String
  messageID : String
deriving DecidableEq, Repr

/-- The `From`-header pass of `Data` (`getMessageSender` plus the matching
loop): when the parsed message carries a sender, re-resolve `fromAddrID`
against the owned emails using the sanitised header address. -/
def dataSenderUpdate (s : Session) (fromHeader : Option String) : Session :=
  match fromHeader with
  | none => s
  | some sender =>
    { s with fromAddrID := matchAddrID s.emails (fun email => eqFold email (sanitizeEmail sender)) s.fromAddrID }

/-- Embedding of `smtpSession.Data` over oracles. `r : α` is the unread
message stream; `parse r` models `parser.New` followed by `getMessageSender`
(`none` is a parser failure, `some fh` a parsed message whose `From` header
yields `fh`); `hasKR` models membership in `addrKRs`; `send` models
`FirstKey` plus the whole of `sendWithKey` and returns the sent message's ID.
The guards on `fromAddrID` and `to` run before any oracle touches `r`. -/
def smtpData {α : Type} (parse : α → Option (Option String)) (hasKR : String → Bool)
    (send : Session → Except Unit String) (s : Session) (r : α) :
    Except SMTPErr MessageSentEvent × Session :=
  if s.fromAddrID = "" then (.error .invalidReturnPath, s)
  else if s.to_ = [] then (.error .invalidRecipient, s)
  else
    match parse r with
    | none => (.error .parseFailure, s)
    | some fromHeader =>
      let s1 := dataSenderUpdate s fromHeader
      if hasKR s1.fromAddrID then
        match send s1 with
        | .error _ => (.error .sendFailure, s1)
        | .ok msgID => (.ok ⟨s1.userID, s1.addrID, msgID⟩, s1)
      else (.error .missingAddrKey, s1)

/-! ## Reference resolution (`getParentID`) -/

/-- Message metadata as returned by `GetAllMessageMetadata`: an ID and the
draft flag (`IsDraft`). -/
structure MessageMetadata where
  id : String
  isDraft : Bool
deriving DecidableEq, Repr

/-- A metadata filter: a string-keyed multimap, kept in insertion order. -/
abbrev Filter := List (String × List String)

/-- The filter used for an internal reference: the `ID` key, plus the
`AddressID` key exactly in split mode. -/
def mkInternalFilter (addrID : String) (mode : AddressMode) (ref : String) : Filter :=
  [("ID", [ref])] ++ (if mode = .split then [("AddressID", [addrID])] else [])

/-- The filter used for the last external reference: the `ExternalID` key,
plus the `AddressID` key exactly in split mode. -/
def mkExternalFilter (addrID : String) (mode : AddressMode) (ref : String) : Filter :=
  [("ExternalID", [ref])] ++ (if mode = .split then [("AddressID", [addrID])] else [])

/-- The inner metadata loop of `getParentID`: a non-draft overwrites the
parent candidate, a draft is deleted (appended to the deletion log). -/
def processMeta : String → List String → List MessageMetadata → String × List String
  | pid, del, [] => (pid, del)
  | pid, del, m :: ms =>
    if m.isDraft then processMeta pid (del ++ [m.id]) ms
    else processMeta m.id del ms

/-- The loop of `getParentID` over the internal references, threading the
parent candidate, the deletion log, and the log of issued filters. -/
def internalPhase (query : Filter → List MessageMetadata) (addrID : String) (mode : AddressMode) :
    List String → String → List String → List Filter → String × List String × List Filter
  | [], pid, del, qs => (pid, del, qs)
  | r :: rs, pid, del, qs =>
    let f := mkInternalFilter addrID mode r
    let (pid', del') := processMeta pid del (query f)
    internalPhase query addrID mode rs pid' del' (qs ++ [f])

/-- The internal references of a message: those containing the internal-ID
domain, with the `@domain` suffix trimmed, in header order. -/
def internalRefs (dom : String) (references : List String) : List String :=
  (references.filter (fun r => strContains r dom)).map (fun r => trimSuffix r ("@" ++ dom))

/-- The external references of a message, in header order. -/
def externalRefs (dom : String) (references : List String) : List String :=
  references.filter (fun r => !(strContains r dom))

/-- One step of the parent search: a non-draft metadata entry overwrites the
candidate parent, a draft leaves it unchanged. -/
def pickParent (pid : String) (m : MessageMetadata) : String :=
  if m.isDraft then pid else m.id

/-- The concatenated results of a sequence of metadata queries. -/
def queryAll (query : Filter → List MessageMetadata) : List Filter → List MessageMetadata
  | [] => []
  | f :: fs => query f ++ queryAll query fs

/-- Result of `getParentID`: the chosen parent (`""` when none), the IDs of
the drafts deleted along the way, and the filters of the metadata queries
issued, in order. -/
structure ParentResult where
  parentID : String
  deleted : List String
  queries : List Filter
deriving DecidableEq, Repr

/-- Embedding of `getParentID`. `query` is the `GetAllMessageMetadata` oracle
and `dom` the internal-ID domain constant (`message.InternalIDDomain`, kept
as a parameter). References containing `dom` are internal (queried in header
order, with the `@dom` suffix trimmed); otherwise external. When the internal
walk finds no parent and an external reference exists, exactly one query on
the last external reference is issued, accepted only on a unique match. -/
def getParentID (query : Filter → List MessageMetadata) (dom : String)
    (addrID : String) (mode : AddressMode) (references : List String) : ParentResult :=
  let internal := internalRefs dom references
  let external := externalRefs dom references
  let (pid, del, qs) := internalPhase query addrID mode internal "" [] []
  if pid = "" ∧ external ≠ [] then
    let f := mkExternalFilter addrID mode (external.getLastD "")
    let pid' := match query f with
      | [m] => m.id
      | _ => pid
    ⟨pid', del, qs ++ [f]⟩
  else ⟨pid, del, qs⟩

/-! ## Concurrent ordered map (`safe.Map`) -/

/-- Modelled from the spec: the `safe.Map` implementation (package `safe`) is
not under `src/`; only its test is. Per the spec it is a mapping with unique
string keys, stable insertion order, positional access, and visitor-scoped
operations; locking is not modelled. The entries list holds the key/value
pairs in insertion order. Visitor-style operations are modelled by returning
the value the visitor would be invoked with: `none`/`false` means the visitor
is not invoked. -/
structure SafeMap (V : Type) where
  entries : List (String × V)
deriving DecidableEq, Repr

namespace SafeMap

/-- Modelled from the spec: the empty map produced by `NewMap`. -/
def empty {V : Type} : SafeMap V := ⟨[]⟩

/-- Modelled from the spec: `Has`. -/
def has {V : Type} (m : SafeMap V) (k : String) : Bool :=
  m.entries.any (fun p => p.1 == k)

/-- Modelled from the spec: `Set` inserts at the end, or updates in place
preserving the key's original position. -/
def set {V : Type} (m : SafeMap V) (k : String) (v : V) : SafeMap V :=
  if m.has k then ⟨m.entries.map (fun p => if p.1 == k then (k, v) else p)⟩
  else ⟨m.entries ++ [(k, v)]⟩

/-- Modelled from the spec: the number of entries. -/
def size {V : Type} (m : SafeMap V) : Nat := m.entries.length

/-- Modelled from the spec: `Get` visits the value under the key, if any. -/
def get {V : Type} (m : SafeMap V) (k : String) : Option V :=
  (m.entries.find? (fun p => p.1 == k)).map (·.2)

/-- Modelled from the spec: `Index i` visits the i-th entry in insertion
order, returning `none` (visitor not invoked) when `i` is outside
`[0, size)`. The index is an integer, as in Go. -/
def index {V : Type} (m : SafeMap V) (i : Int) : Option (String × V) :=
  if i < 0 then none else m.entries.get? i.toNat

/-- Modelled from the spec: `GetDelete` atomically removes the entry under
the key and visits its value; an absent key returns `none` and leaves the
map unchanged. -/
def getDelete {V : Type} (m : SafeMap V) (k : String) : Option V × SafeMap V :=
  match m.entries.find? (fun p => p.1 == k) with
  | none => (none, m)
  | some p => (some p.2, ⟨m.entries.filter (fun q => !(q.1 == k))⟩)

/-- Modelled from the spec: `Values` visits a copy of the values slice. -/
def values {V : Type} (m : SafeMap V) : List V := m.entries.map (·.2)

end SafeMap

/-! ## Theorems -/

/-- C6: `Rcpt` with an empty address fails with `ErrInvalidRecipient` leaving
`to` unchanged; with a non-empty address it never fails and appends the raw
argument exactly when absent (case-sensitive), so a repeated `Rcpt` with the
same argument leaves `to` as after a single one. -/
theorem rcpt_spec (s : Session) (a : String) :
    (a = "" → smtpRcpt s a = (.error .invalidRecipient, s))
    ∧ (a ≠ "" →
        (smtpRcpt s a).1 = .ok ()
        ∧ (smtpRcpt s a).2 = { s with to_ := if a ∈ s.to_ then s.to_ else s.to_ ++ [a] }
        ∧ (smtpRcpt (smtpRcpt s a).2 a).2 = (smtpRcpt s a).2) := by
  constructor
  · intro h
    simp [smtpRcpt, h]
  · intro h
    refine ⟨?_, ?_, ?_⟩
    · by_cases hm : a ∈ s.to_ <;> simp [smtpRcpt, h, hm]
    · by_cases hm : a ∈ s.to_ <;> simp [smtpRcpt, h, hm]
    · by_cases hm : a ∈ s.to_
      · simp [smtpRcpt, h, hm]
      · simp [smtpRcpt, h, hm]

/-- Closed instance of `rcpt_spec` with both hypotheses discharged. -/
theorem rcpt_spec_witness :
    (smtpRcpt ⟨"u", "a1", .combined, [("a1", "a@x")], "", []⟩ "r@x").1 = .ok ()
    ∧ (smtpRcpt (smtpRcpt ⟨"u", "a1", .combined, [("a1", "a@x")], "", []⟩ "r@x").2 "r@x").2
        = (smtpRcpt ⟨"u", "a1", .combined, [("a1", "a@x")], "", []⟩ "r@x").2 := by
  have h := (rcpt_spec ⟨"u", "a1", .combined, [("a1", "a@x")], "", []⟩ "r@x").2 (by decide)
  exact ⟨h.1, h.2.2⟩

/-- C7: `Mail` invoked with `RequireTLS`, with `UTF8`, or with a non-empty
`Auth` parameter different from the authenticated address's email returns
`ErrNotImplemented` and leaves the session (in particular `fromAddrID` and
`to`) unchanged. -/
theorem mail_reject_options (s : Session) (from_ : String) (opts : MailOptions)
    (h : opts.requireTLS = true ∨ opts.utf8 = true ∨
      ∃ a, opts.auth = some a ∧ a ≠ "" ∧ a ≠ lookupEmail s.emails s.addrID) :
    smtpMail s from_ opts = (.error .notImplemented, s) := by
  rcases h with h | h | ⟨a, ha, hne, hnd⟩
  · simp [smtpMail, h]
  · by_cases ht : opts.requireTLS <;> simp [smtpMail, h, ht]
  · by_cases ht : opts.requireTLS
    · simp [smtpMail, ht]
    · by_cases hu : opts.utf8
      · simp [smtpMail, ht, hu]
      · simp [smtpMail, ht, hu, ha, hne, hnd]

/-- Closed instance of `mail_reject_options` at a `REQUIRETLS` option. -/
theorem mail_reject_options_witness :
    smtpMail ⟨"u", "a1", .combined, [("a1", "a@x")], "", []⟩ "a@x" ⟨true, false, none⟩
      = (.error .notImplemented, ⟨"u", "a1", .combined, [("a1", "a@x")], "", []⟩) :=
  mail_reject_options ⟨"u", "a1", .combined, [("a1", "a@x")], "", []⟩ "a@x" ⟨true, false, none⟩
    (Or.inl rfl)

/-- C4: `Data` with an empty `fromAddrID` fails with `ErrInvalidReturnPath`;
with a non-empty `fromAddrID` and no recipients it fails with
`ErrInvalidRecipient`; in both cases the result is the same for every reader
and every parse oracle, i.e. the message stream is never consumed. -/
theorem data_guard_errors {α : Type} (parse : α → Option (Option String)) (hasKR : String → Bool)
    (send : Session → Except Unit String) (s : Session) (r : α) :
    (s.fromAddrID = "" → smtpData parse hasKR send s r = (.error .invalidReturnPath, s))
    ∧ (s.fromAddrID ≠ "" → s.to_ = [] → smtpData parse hasKR send s r = (.error .invalidRecipient, s))
    ∧ ((s.fromAddrID = "" ∨ s.to_ = []) → ∀ {β : Type} (parse' : β → Option (Option String)) (r' : β),
        smtpData parse hasKR send s r = smtpData parse' hasKR send s r') := by
  refine ⟨?_, ?_, ?_⟩
  · intro h
    simp [smtpData, h]
  · intro h h'
    simp [smtpData, h, h']
  · rintro (h | h) β parse' r'
    · simp [smtpData, h]
    · by_cases hf : s.fromAddrID = "" <;> simp [smtpData, hf, h]

/-- Closed instance of `data_guard_errors`: a session with recipients but no
return path, and a session with a return path but no recipients. -/
theorem data_guard_errors_witness :
    smtpData (fun _ : Unit => none) (fun _ => true) (fun _ => .ok "m")
        ⟨"u", "a1", .combined, [("a1", "a@x")], "", ["r@x"]⟩ () =
      (.error .invalidReturnPath, ⟨"u", "a1", .combined, [("a1", "a@x")], "", ["r@x"]⟩)
    ∧ smtpData (fun _ : Unit => none) (fun _ => true) (fun _ => .ok "m")
        ⟨"u", "a1", .combined, [("a1", "a@x")], "a1", []⟩ () =
      (.error .invalidRecipient, ⟨"u", "a1", .combined, [("a1", "a@x")], "a1", []⟩) :=
  ⟨(data_guard_errors (fun _ : Unit => none) (fun _ => true) (fun _ => .ok "m")
      ⟨"u", "a1", .combined, [("a1", "a@x")], "", ["r@x"]⟩ ()).1 rfl,
    (data_guard_errors (fun _ : Unit => none) (fun _ => true) (fun _ => .ok "m")
      ⟨"u", "a1", .combined, [("a1", "a@x")], "a1", []⟩ ()).2.1 (by decide) rfl⟩

theorem dataSenderUpdate_addrID (s : Session) (fh : Option String) :
    (dataSenderUpdate s fh).addrID = s.addrID := by
  cases fh <;> rfl

theorem dataSenderUpdate_userID (s : Session) (fh : Option String) :
    (dataSenderUpdate s fh).userID = s.userID := by
  cases fh <;> rfl

/-- C10: a successful `Data` enqueues a `MessageSent` event whose `AddressID`
is the session's active address ID (`addrID`, fixed at construction) and
whose `UserID` is the session's user ID — not the resolved sending address
`fromAddrID`. -/
theorem data_event_addressID {α : Type} (parse : α → Option (Option String)) (hasKR : String → Bool)
    (send : Session → Except Unit String) (s : Session) (r : α) (ev : MessageSentEvent) (s' : Session)
    (h : smtpData parse hasKR send s r = (.ok ev, s')) :
    ev.addressID = s.addrID ∧ ev.userID = s.userID ∧ s'.addrID = s.addrID := by
  unfold smtpData at h
  split at h
  · simp at h
  · split at h
    · simp at h
    · split at h
      · simp at h
      · rename_i fh heq
        dsimp only at h
        split at h
        · split at h
          · simp at h
          · rename_i msgID hs
            rw [Prod.mk.injEq, Except.ok.injEq] at h
            obtain ⟨hev, hs'⟩ := h
            subst hev hs'
            exact ⟨dataSenderUpdate_addrID s fh, dataSenderUpdate_userID s fh,
              dataSenderUpdate_addrID s fh⟩
        · simp at h

/-- Closed instance of `data_event_addressID`: the header `From` re-resolves
the sending address to the alias ID `a2`, yet the event carries the active
address ID `a1` (which differs from the final `fromAddrID`). -/
theorem data_event_addressID_witness :
    (MessageSentEvent.mk "u" "a1" "mID").addressID = "a1"
    ∧ (MessageSentEvent.mk "u" "a1" "mID").userID = "u"
    ∧ (Session.mk "u" "a1" .combined [("a1", "a@x"), ("a2", "alias@x")] "a2" ["r@x"]).addrID = "a1" :=
  data_event_addressID (fun _ : Unit => some (some "alias@x")) (fun _ => true)
    (fun _ => .ok "mID") ⟨"u", "a1", .combined, [("a1", "a@x"), ("a2", "alias@x")], "a1", ["r@x"]⟩
    () ⟨"u", "a1", "mID"⟩ ⟨"u", "a1", .combined, [("a1", "a@x"), ("a2", "alias@x")], "a2", ["r@x"]⟩
    rfl

theorem matchAddrID_eq (emails : List (String × String)) (test : String → Bool) (acc : String) :
    matchAddrID emails test acc = ((emails.filter (fun p => test p.2)).map (·.1)).getLastD acc := by
  induction emails generalizing acc with
  | nil => rfl
  | cons p ps ih =>
    by_cases h : test p.2
    · simp only [matchAddrID, List.foldl_cons, h, if_pos, List.filter_cons_of_pos,
        List.map_cons, List.getLastD_cons]
      exact ih p.1
    · simp only [matchAddrID, List.foldl_cons, h, if_neg, List.filter_cons_of_neg,
        Bool.false_eq_true, not_false_iff]
      exact ih acc

/-- C5 counterexample: a session whose `fromAddrID` is still set from an
earlier `MAIL` command accepts a return path matching no owned email — the
claimed `ErrInvalidReturnPath` is not returned, and the stale ID is kept. -/
theorem mail_stale_counterexample :
    (∀ p ∈ ([("a1", "a@x")] : List (String × String)), eqFold "nobody@y" p.2 = false)
    ∧ smtpMail ⟨"u", "a1", .combined, [("a1", "a@x")], "a1", []⟩ "nobody@y" ⟨false, false, none⟩
        = (.ok (), ⟨"u", "a1", .combined, [("a1", "a@x")], "a1", []⟩) := by
  exact ⟨by decide, rfl⟩

/-- C5 (amended): `Mail` without options sets `fromAddrID` to the ID of the
last owned email entry case-insensitively equal to the given address, keeping
the previous value when none matches; `ErrInvalidReturnPath` is returned
exactly when the resulting `fromAddrID` is empty — in particular when no
owned email matches and `fromAddrID` was empty beforehand. When no owned
email matches but an earlier call left `fromAddrID` set, `Mail` succeeds with
the stale value. -/
theorem mail_fromAddr_amended (s : Session) (from_ : String) :
    (smtpMail s from_ ⟨false, false, none⟩ =
      (let f := ((s.emails.filter (fun p => eqFold from_ p.2)).map (·.1)).getLastD s.fromAddrID
       ((if f = "" then .error .invalidReturnPath else .ok ()), { s with fromAddrID := f })))
    ∧ ((∀ p ∈ s.emails, eqFold from_ p.2 = false) → s.fromAddrID = "" →
        smtpMail s from_ ⟨false, false, none⟩ = (.error .invalidReturnPath, s))
    ∧ ((∀ p ∈ s.emails, eqFold from_ p.2 = false) → s.fromAddrID ≠ "" →
        smtpMail s from_ ⟨false, false, none⟩ = (.ok (), s)) := by
  obtain ⟨uID, aID, aMode, ems, f0, tos⟩ := s
  have hfilter : ∀ (hall : ∀ p ∈ ems, eqFold from_ p.2 = false),
      ems.filter (fun p => eqFold from_ p.2) = [] := by
    intro hall
    refine List.filter_eq_nil_iff.mpr ?_
    intro p hp
    simp [hall p hp]
  refine ⟨?_, ?_, ?_⟩
  · show mailCore ⟨uID, aID, aMode, ems, f0, tos⟩ from_ = _
    unfold mailCore
    rw [matchAddrID_eq]
    dsimp only
    split <;> simp [*]
  · intro hall h0
    show mailCore ⟨uID, aID, aMode, ems, f0, tos⟩ from_ = _
    unfold mailCore
    rw [matchAddrID_eq, hfilter hall]
    simp only at h0
    subst h0
    rfl
  · intro hall h0
    show mailCore ⟨uID, aID, aMode, ems, f0, tos⟩ from_ = _
    unfold mailCore
    rw [matchAddrID_eq, hfilter hall]
    simp only at h0
    simp [h0]

/-- Closed instance of `mail_fromAddr_amended`: a fresh session resolves the
return path to the unique matching owned address. -/
theorem mail_fromAddr_amended_witness :
    smtpMail ⟨"u", "a1", .combined, [("a1", "a@x")], "a1", []⟩ "nobody@y" ⟨false, false, none⟩
      = (.ok (), ⟨"u", "a1", .combined, [("a1", "a@x")], "a1", []⟩) :=
  (mail_fromAddr_amended ⟨"u", "a1", .combined, [("a1", "a@x")], "a1", []⟩ "nobody@y").2.2
    (by decide) (by decide)

theorem fixSender_toList (m : Message) (from_ : String) : (fixSender m from_).toList = m.toList := by
  obtain ⟨sn, tl, cl, bl, rf⟩ := m
  cases sn with
  | none => rfl
  | some a =>
    unfold fixSender
    dsimp only
    split <;> rfl

theorem fixSender_ccList (m : Message) (from_ : String) : (fixSender m from_).ccList = m.ccList := by
  obtain ⟨sn, tl, cl, bl, rf⟩ := m
  cases sn with
  | none => rfl
  | some a =>
    unfold fixSender
    dsimp only
    split <;> rfl

theorem fixSender_bccList (m : Message) (from_ : String) : (fixSender m from_).bccList = m.bccList := by
  obtain ⟨sn, tl, cl, bl, rf⟩ := m
  cases sn with
  | none => rfl
  | some a =>
    unfold fixSender
    dsimp only
    split <;> rfl

theorem bccAppend_sender (rs : List String) (m : Message) : (bccAppend m rs).sender = m.sender := by
  induction rs generalizing m with
  | nil => rfl
  | cons r rs ih =>
    unfold bccAppend
    split
    · exact ih m
    · exact ih _

theorem bccAppend_spec (rs : List String) (m : Message) :
    bccAppend m rs =
      { m with bccList := m.bccList ++ (rs.filter (fun r => decide (r ∉ m.recipients))).map (fun r => ⟨"", r⟩) } := by
  induction rs generalizing m with
  | nil => simp [bccAppend]
  | cons r rs ih =>
    by_cases h : r ∈ m.recipients
    · rw [bccAppend, if_pos h, ih]
      simp [h]
    · rw [bccAppend, if_neg h, ih]
      have hrec : ({ m with bccList := m.bccList ++ [⟨"", r⟩] } : Message).recipients = m.recipients := rfl
      rw [hrec]
      simp [List.filter_cons, h, List.append_assoc]

/-- Membership of an envelope recipient in the address strings of the
envelope-filtered To list agrees with membership in the unfiltered one. -/
theorem mem_map_filter_addr (l : List MailAddress) (to_ : List String) (r : String) (hr : r ∈ to_) :
    r ∈ (l.filter (fun a => decide (a.address ∈ to_))).map (·.address) ↔ r ∈ l.map (·.address) := by
  simp only [List.mem_map, List.mem_filter, decide_eq_true_eq]
  constructor
  · rintro ⟨a, ⟨ha, _⟩, rfl⟩
    exact ⟨a, ha, rfl⟩
  · rintro ⟨a, ha, rfl⟩
    exact ⟨a, ⟨ha, hr⟩, rfl⟩

/-- C2: a successful sanitisation keeps in `ToList` exactly the header To
addresses whose address string occurs in the envelope `to`, and appends to
`BccList` one bare entry for every envelope recipient not already among the
message's recipients (header To addresses or Cc addresses), in envelope
order. -/
theorem sanitize_to_bcc (msg : Message) (from_ : String) (to_ emails : List String) (m' : Message)
    (h : sanitizeParsedMessage msg from_ to_ emails = .ok m') :
    m'.toList = msg.toList.filter (fun a => decide (a.address ∈ to_))
    ∧ m'.bccList = msg.bccList ++
        (to_.filter (fun r =>
          decide (r ∉ msg.toList.map (·.address) ∧ r ∉ msg.ccList.map (·.address)))).map
          (fun r => (⟨"", r⟩ : MailAddress)) := by
  unfold sanitizeParsedMessage at h
  dsimp only at h
  cases hidx : emails.findIdx? (fun email =>
      eqFold email (sanitizeEmail ((fixSender msg from_).sender.getD ⟨"", ""⟩).address)) with
  | none =>
    rw [hidx] at h
    simp at h
  | some idx =>
    rw [hidx] at h
    dsimp only at h
    rw [Except.ok.injEq] at h
    subst h
    rw [bccAppend_spec]
    constructor
    · simp [fixSender_toList]
    · dsimp only
      rw [fixSender_bccList]
      congr 1
      apply congrArg
      apply List.filter_congr
      intro r hr
      rw [decide_eq_decide]
      unfold Message.recipients
      dsimp only
      rw [fixSender_ccList, fixSender_toList, List.mem_append, not_or,
        mem_map_filter_addr msg.toList to_ r hr]

/-- Closed instance of `sanitize_to_bcc`, the spec's BCC-synthesis scenario:
envelope `to = [a, b, c]`, header `To: a`, `Cc: b` gives `BccList = [c]`. -/
theorem sanitize_to_bcc_witness :
    (Message.mk (some ⟨"", "alice@svc"⟩) [⟨"", "a"⟩] [⟨"", "b"⟩] [⟨"", "c"⟩] []).toList
        = (Message.mk (some ⟨"", "alice@svc"⟩) [⟨"", "a"⟩] [⟨"", "b"⟩] [] []).toList.filter
            (fun a => decide (a.address ∈ ["a", "b", "c"]))
    ∧ (Message.mk (some ⟨"", "alice@svc"⟩) [⟨"", "a"⟩] [⟨"", "b"⟩] [⟨"", "c"⟩] []).bccList
        = [] ++ ((["a", "b", "c"].filter (fun r =>
            decide (r ∉ (Message.mk (some ⟨"", "alice@svc"⟩) [⟨"", "a"⟩] [⟨"", "b"⟩] [] []).toList.map (·.address)
              ∧ r ∉ (Message.mk (some ⟨"", "alice@svc"⟩) [⟨"", "a"⟩] [⟨"", "b"⟩] [] []).ccList.map (·.address)))).map
            (fun r => (⟨"", r⟩ : MailAddress))) :=
  sanitize_to_bcc (Message.mk (some ⟨"", "alice@svc"⟩) [⟨"", "a"⟩] [⟨"", "b"⟩] [] []) ""
    ["a", "b", "c"] ["alice@svc"]
    (Message.mk (some ⟨"", "alice@svc"⟩) [⟨"", "a"⟩] [⟨"", "b"⟩] [⟨"", "c"⟩] []) rfl

/-- C3 counterexample: the header `From: alice+work+extra@svc` matches the
owned address `Alice@svc` after stripping the plus tag (`work+extra`), yet
sanitisation rewrites the sender to `Alice@svc` — the plus tag is NOT
preserved, because `constructEmail` only keeps a tag when the local part
splits on `+` into exactly two pieces. -/
theorem sanitize_plusTag_counterexample :
    eqFold "Alice@svc" (sanitizeEmail "alice+work+extra@svc") = true
    ∧ sanitizeParsedMessage ⟨some ⟨"", "alice+work+extra@svc"⟩, [], [], [], []⟩ "" [] ["Alice@svc"]
        = .ok ⟨some ⟨"", "Alice@svc"⟩, [], [], [], []⟩
    ∧ ("Alice@svc" : String) ≠ "Alice+work+extra@svc" :=
  ⟨rfl, rfl, by decide⟩

/-- C3 (amended): when no owned email case-insensitively matches the
plus-stripped sender, sanitisation fails with the address-not-owned error;
when the first match is at index `idx`, the sender is rewritten to
`constructEmail sender owned`. `constructEmail` grafts the header's plus tag
onto the owned address's local part and domain when the header's local part
contains exactly one `+` (and both addresses have exactly one `@`);
otherwise — in particular when the local part contains two or more `+`
signs — the tag is dropped and the sender becomes exactly the owned
address. -/
theorem sanitize_plusTag_amended (msg : Message) (from_ : String) (to_ emails : List String) :
    (emails.findIdx? (fun email =>
        eqFold email (sanitizeEmail ((fixSender msg from_).sender.getD ⟨"", ""⟩).address)) = none →
      sanitizeParsedMessage msg from_ to_ emails =
        .error (.addressNotOwned ((fixSender msg from_).sender.getD ⟨"", ""⟩).address))
    ∧ (∀ idx, emails.findIdx? (fun email =>
        eqFold email (sanitizeEmail ((fixSender msg from_).sender.getD ⟨"", ""⟩).address)) = some idx →
      ∃ m', sanitizeParsedMessage msg from_ to_ emails = .ok m'
        ∧ m'.sender.map (·.address) =
            some (constructEmail ((fixSender msg from_).sender.getD ⟨"", ""⟩).address (emails.getD idx "")))
    ∧ (∀ he a hl hd tagless tag al ad, splitOn1 '@' he = [hl, hd] → splitOn1 '+' hl = [tagless, tag] →
        splitOn1 '@' a = [al, ad] → constructEmail he a = al ++ "+" ++ tag ++ "@" ++ ad)
    ∧ (∀ he a hl hd, splitOn1 '@' he = [hl, hd] → (splitOn1 '+' hl).length ≠ 2 →
        constructEmail he a = a) := by
  refine ⟨?_, ?_, ?_, ?_⟩
  · intro hidx
    unfold sanitizeParsedMessage
    dsimp only
    rw [hidx]
  · intro idx hidx
    unfold sanitizeParsedMessage
    dsimp only
    rw [hidx]
    dsimp only
    refine ⟨_, rfl, ?_⟩
    rw [bccAppend_sender]
    rfl
  · intro he a hl hd tagless tag al ad h1 h2 h3
    unfold constructEmail
    rw [h1]
    dsimp only
    rw [h2]
    dsimp only
    rw [h3]
  · intro he a hl hd h1 h2
    unfold constructEmail
    rw [h1]
    dsimp only
    cases hp : splitOn1 '+' hl with
    | nil => rfl
    | cons x xs =>
      cases xs with
      | nil => rfl
      | cons y ys =>
        cases ys with
        | nil =>
          exact absurd (by simp [hp]) h2
        | cons z zs => rfl

/-- Closed instance of `sanitize_plusTag_amended`: the spec's plus-tag
scenario — header `From: alice+work@svc`, owned address `Alice@svc` — yields
the sanitized sender `Alice+work@svc`. -/
theorem sanitize_plusTag_amended_witness :
    (∃ m', sanitizeParsedMessage ⟨some ⟨"", "alice+work@svc"⟩, [], [], [], []⟩ "" [] ["Alice@svc"]
        = .ok m'
      ∧ m'.sender.map (·.address) = some (constructEmail "alice+work@svc" "Alice@svc"))
    ∧ constructEmail "alice+work@svc" "Alice@svc" = "Alice" ++ "+" ++ "work" ++ "@" ++ "svc" :=
  ⟨(sanitize_plusTag_amended ⟨some ⟨"", "alice+work@svc"⟩, [], [], [], []⟩ "" [] ["Alice@svc"]).2.1
      0 rfl,
    (sanitize_plusTag_amended ⟨some ⟨"", "alice+work@svc"⟩, [], [], [], []⟩ "" [] ["Alice@svc"]).2.2.1
      "alice+work@svc" "Alice@svc" "alice+work" "svc" "alice" "work" "Alice" "svc" rfl rfl rfl⟩

theorem processMeta_spec (ms : List MessageMetadata) (pid : String) (del : List String) :
    processMeta pid del ms =
      (ms.foldl pickParent pid, del ++ (ms.filter (·.isDraft)).map (·.id)) := by
  induction ms generalizing pid del with
  | nil => simp [processMeta]
  | cons m ms ih =>
    by_cases h : m.isDraft
    · rw [processMeta, if_pos h, ih]
      simp [pickParent, h, List.filter_cons]
    · rw [processMeta, if_neg h, ih]
      simp [pickParent, h, List.filter_cons]

theorem internalPhase_spec (query : Filter → List MessageMetadata) (a : String) (mo : AddressMode)
    (rs : List String) (pid : String) (del : List String) (qs : List Filter) :
    internalPhase query a mo rs pid del qs =
      ((queryAll query (rs.map (mkInternalFilter a mo))).foldl pickParent pid,
        del ++ ((queryAll query (rs.map (mkInternalFilter a mo))).filter (·.isDraft)).map (·.id),
        qs ++ rs.map (mkInternalFilter a mo)) := by
  induction rs generalizing pid del qs with
  | nil => simp [internalPhase, queryAll]
  | cons r rs ih =>
    rw [internalPhase]
    dsimp only
    rw [processMeta_spec, ih]
    simp [queryAll, List.foldl_append, List.filter_append, List.append_assoc]

theorem foldl_pickParent_all_drafts (ms : List MessageMetadata) (pid : String)
    (h : ∀ m ∈ ms, m.isDraft = true) : ms.foldl pickParent pid = pid := by
  induction ms generalizing pid with
  | nil => rfl
  | cons m ms ih =>
    rw [List.foldl_cons]
    have hm : pickParent pid m = pid := by
      unfold pickParent
      rw [h m (List.mem_cons_self m ms)]
      rfl
    rw [hm]
    exact ih pid (fun x hx => h x (List.mem_cons_of_mem m hx))

/-- Characterisation of `getParentID` as one equation: the internal phase
queries every internal reference in order, deleting the drafts it sees and
keeping the last non-draft as parent; only when that yields no parent and an
external reference exists is one query on the last external reference
issued, accepted exactly on a unique match. -/
theorem getParentID_eq (query : Filter → List MessageMetadata) (dom addrID : String)
    (mode : AddressMode) (refs : List String) :
    getParentID query dom addrID mode refs =
      (let I := internalRefs dom refs
       let E := externalRefs dom refs
       let ms := queryAll query (I.map (mkInternalFilter addrID mode))
       let ip := ms.foldl pickParent ""
       let del := (ms.filter (·.isDraft)).map (·.id)
       if ip = "" ∧ E ≠ [] then
         ⟨(match query (mkExternalFilter addrID mode (E.getLastD "")) with
            | [m] => m.id
            | _ => ip), del, I.map (mkInternalFilter addrID mode) ++ [mkExternalFilter addrID mode (E.getLastD "")]⟩
       else ⟨ip, del, I.map (mkInternalFilter addrID mode)⟩) := by
  unfold getParentID
  dsimp only
  rw [internalPhase_spec]
  dsimp only
  simp only [List.nil_append]

/-- C1: over any metadata oracle, `getParentID` deletes exactly the drafts
returned by the internal queries (issued in header order, one per internal
reference), records as internal parent the last non-draft those queries
return, and — only when that parent is empty and an external reference
exists — issues exactly one further query, on the last external reference,
accepting its result as parent exactly when one message matches. In
particular, when every internal query result is a draft and there are no
external references, the parent is empty and every returned draft is
deleted. -/
theorem getParentID_resolution (query : Filter → List MessageMetadata) (dom addrID : String)
    (mode : AddressMode) (refs : List String) :
    (let I := internalRefs dom refs
     let E := externalRefs dom refs
     let ms := queryAll query (I.map (mkInternalFilter addrID mode))
     let ip := ms.foldl pickParent ""
     let res := getParentID query dom addrID mode refs
     res.deleted = (ms.filter (·.isDraft)).map (·.id)
     ∧ res.queries = I.map (mkInternalFilter addrID mode) ++
         (if ip = "" ∧ E ≠ [] then [mkExternalFilter addrID mode (E.getLastD "")] else [])
     ∧ res.parentID = (if ip = "" ∧ E ≠ [] then
           match query (mkExternalFilter addrID mode (E.getLastD "")) with
           | [m] => m.id
           | _ => ""
         else ip)
     ∧ ((∀ m ∈ ms, m.isDraft = true) → E = [] → res.parentID = "" ∧ res.deleted = ms.map (·.id))) := by
  rw [getParentID_eq]
  dsimp only
  by_cases hc : (queryAll query ((internalRefs dom refs).map (mkInternalFilter addrID mode))).foldl
      pickParent "" = "" ∧ externalRefs dom refs ≠ []
  · rw [if_pos hc, if_pos hc, if_pos hc]
    refine ⟨rfl, rfl, ?_, ?_⟩
    · dsimp only
      rw [hc.1]
    · intro _ hE
      exact absurd hE hc.2
  · rw [if_neg hc, if_neg hc, if_neg hc]
    refine ⟨rfl, by rw [List.append_nil], rfl, ?_⟩
    intro hall _
    constructor
    · exact foldl_pickParent_all_drafts _ _ hall
    · dsimp only
      congr 1
      exact List.filter_eq_self.mpr hall

/-- Closed instance of `getParentID_resolution`: a references list whose
single internal id resolves to a draft yields an empty parent, and the draft
is deleted. -/
theorem getParentID_resolution_witness :
    (getParentID (fun _ => [⟨"d1", true⟩]) "id.dom" "a1" .split ["abc@id.dom"]).parentID = ""
    ∧ (getParentID (fun _ => [⟨"d1", true⟩]) "id.dom" "a1" .split ["abc@id.dom"]).deleted = ["d1"] :=
  (getParentID_resolution (fun _ => [⟨"d1", true⟩]) "id.dom" "a1" .split ["abc@id.dom"]).2.2.2
    (by decide) (by decide)

/-- C8: every filter passed to `GetAllMessageMetadata` during parent
resolution — internal or external — carries the `AddressID` key exactly when
the address mode is split, and any `AddressID` entry holds exactly the
session's active address ID. -/
theorem parentID_filters_addressID (query : Filter → List MessageMetadata) (dom addrID : String)
    (mode : AddressMode) (refs : List String) (f : Filter)
    (hf : f ∈ (getParentID query dom addrID mode refs).queries) :
    (("AddressID", [addrID]) ∈ f ↔ mode = .split)
    ∧ ∀ l, ("AddressID", l) ∈ f → l = [addrID] := by
  have hint : ∀ r : String, (("AddressID", [addrID]) ∈ mkInternalFilter addrID mode r ↔ mode = .split)
      ∧ ∀ l, ("AddressID", l) ∈ mkInternalFilter addrID mode r → l = [addrID] := by
    intro r
    cases mode <;> simp [mkInternalFilter]
  have hext : ∀ r : String, (("AddressID", [addrID]) ∈ mkExternalFilter addrID mode r ↔ mode = .split)
      ∧ ∀ l, ("AddressID", l) ∈ mkExternalFilter addrID mode r → l = [addrID] := by
    intro r
    cases mode <;> simp [mkExternalFilter]
  rw [getParentID_eq] at hf
  dsimp only at hf
  split at hf
  · dsimp only at hf
    rw [List.mem_append] at hf
    rcases hf with hf | hf
    · obtain ⟨r, _, rfl⟩ := List.mem_map.mp hf
      exact hint r
    · rw [List.mem_singleton] at hf
      subst hf
      exact hext _
  · dsimp only at hf
    obtain ⟨r, _, rfl⟩ := List.mem_map.mp hf
    exact hint r

/-- Closed instance of `parentID_filters_addressID`: in split mode the one
issued filter carries `AddressID` with exactly the active address ID. -/
theorem parentID_filters_addressID_witness :
    ((("AddressID", ["a1"]) ∈ ([("ID", ["abc"]), ("AddressID", ["a1"])] : Filter)) ↔
        AddressMode.split = AddressMode.split)
    ∧ ∀ l, ("AddressID", l) ∈ ([("ID", ["abc"]), ("AddressID", ["a1"])] : Filter) → l = ["a1"] :=
  parentID_filters_addressID (fun _ => []) "id.dom" "a1" .split ["abc@id.dom"]
    [("ID", ["abc"]), ("AddressID", ["a1"])] (by decide)

/-- C9: for the ordered map, `index` outside `[0, size)` returns `none` (the
visitor is not invoked); `getDelete` on an absent key returns `none` and
leaves the map unchanged; after a deletion `index i` returns the i-th
surviving entry in original insertion order — in particular, after inserting
`a` then `b` and deleting `b`, index 0 still yields `a`'s entry. -/
theorem safeMap_spec :
    (∀ (V : Type) (m : SafeMap V) (i : Int), (i < 0 ∨ (m.size : Int) ≤ i) → m.index i = none)
    ∧ (∀ (V : Type) (m : SafeMap V) (k : String), m.get k = none → m.getDelete k = (none, m))
    ∧ (∀ (V : Type) (m : SafeMap V) (k : String) (i : Int), 0 ≤ i →
        (m.getDelete k).2.index i = (m.entries.filter (fun q => !(q.1 == k))).get? i.toNat)
    ∧ ((((SafeMap.empty.set "a" "b").set "b" "c").getDelete "b").2.index 0
        = some ("a", "b")) := by
  refine ⟨?_, ?_, ?_, by decide⟩
  · intro V m i h
    unfold SafeMap.index
    rcases h with h | h
    · rw [if_pos h]
    · have h0 : ¬ i < 0 := by omega
      rw [if_neg h0]
      refine List.get?_eq_none.mpr ?_
      unfold SafeMap.size at h
      omega
  · intro V m k h
    unfold SafeMap.get at h
    rw [Option.map_eq_none'] at h
    unfold SafeMap.getDelete
    rw [h]
  · intro V m k i hi
    have h0 : ¬ i < 0 := by omega
    cases hf : m.entries.find? (fun p => p.1 == k) with
    | none =>
      have hfe : m.entries.filter (fun q => !(q.1 == k)) = m.entries := by
        refine List.filter_eq_self.mpr ?_
        intro q hq
        have := List.find?_eq_none.mp hf q hq
        simp only [Bool.not_eq_true'] at this ⊢
        simp [this]
      unfold SafeMap.getDelete
      rw [hf]
      unfold SafeMap.index
      rw [if_neg h0, hfe]
    | some p =>
      unfold SafeMap.getDelete
      rw [hf]
      unfold SafeMap.index
      rw [if_neg h0]

/-- Closed instance of `safeMap_spec`: out-of-range index and absent-key
deletion on a one-entry map. -/
theorem safeMap_spec_witness :
    (SafeMap.mk [("a", "b")] : SafeMap String).index 1 = none
    ∧ (SafeMap.mk [("a", "b")] : SafeMap String).getDelete "z"
        = (none, SafeMap.mk [("a", "b")]) :=
  ⟨safeMap_spec.1 String ⟨[("a", "b")]⟩ 1 (Or.inr (by decide)),
    safeMap_spec.2.1 String ⟨[("a", "b")]⟩ "z" (by decide)⟩

end ProtonBridge
